import Mathlib

/-!
Shallow embedding of the Open MPI attribute caching engine
(`ompi/attribute/attribute.c`).

Modelling conventions:
* The platform is the one the specification's scenarios fix: 64-bit
  pointers and `MPI_Aint`, 32-bit `int` and `MPI_Fint`, little endian,
  so `int_pos = integer_pos = 0` after the probe loop in
  `attr_subsys_construct`.
* Machine words are `Nat` bit patterns reduced mod `2 ^ 64`; signed
  reads are made explicit with `toSigned`.
* Status codes are an inductive type with one constructor per named
  constant the engine surfaces, plus `userErr` for statuses produced
  by user callbacks.
* Hash tables (`opal_hash_table_t`) are association lists with
  distinct keys; `opal_bitmap_t` is the list of allocated indices plus
  the max-size bound.
* User callbacks are modelled as oracle data carried by the keyval
  descriptor: the status a delete callback returns, and the
  status/flag/output word a copy callback produces.  The engine treats
  callback results as opaque, so this is faithful for single-threaded,
  non-reentrant executions, which is what the claims quantify over.
* `OBJ_RETAIN`/`OBJ_RELEASE` on a keyval become explicit refcount
  arithmetic; the destructor that runs when the count reaches zero
  removes the registry entry and clears the key's bitmap bit, as in
  `ompi_attribute_keyval_destruct`.
-/

/-- Status codes surfaced by the engine (`ompi/constants.h`, `mpi.h`).
The concrete integer values are irrelevant to the claims; distinctness
is what matters, so an inductive type is used. -/
inductive Status where
  | SUCCESS
  | ERR_OUT_OF_RESOURCE
  | ERR_BAD_PARAM
  | ERR_NOT_FOUND
  | ERR_ARG
  | ERR_INTERN
  | KEYVAL_INVALID
  | userErr (n : Nat)
deriving DecidableEq

/-- `ompi_attribute_type_t`: the kind of host object a keyval applies to. -/
inductive AttrType where
  | COMM_ATTR
  | TYPE_ATTR
  | WIN_ATTR
  | INSTANCE_ATTR
deriving DecidableEq

/-- `ompi_attribute_translate_t`: how the stored value was written. -/
inductive TranslateMode where
  | ATTR_C
  | ATTR_INT
  | ATTR_FINT
  | ATTR_AINT

/-- Interpret the low `bits` bits of a word as a two's-complement
signed integer. -/
def toSigned (bits : Nat) (w : Nat) : Int :=
  if w % 2 ^ bits < 2 ^ (bits - 1) then ((w % 2 ^ bits : Nat) : Int)
  else ((w % 2 ^ bits : Nat) : Int) - 2 ^ bits

/-- The `bits`-wide two's-complement bit pattern of an integer. -/
def toUnsigned (bits : Nat) (n : Int) : Nat :=
  (n % 2 ^ bits).toNat

/-- `MPI_KEYVAL_INVALID` (`mpi.h`). -/
def MPI_KEYVAL_INVALID : Int := -1

/-- `attribute_value_t`: one attribute cell.  `av_value` is the
machine word that the union of pointer / int / fint / aint slots
occupies; on the modelled platform the int and fint slots are its low
32 bits and the aint slot is the full word. -/
structure AttributeValue where
  av_key : Int
  av_value : Nat
  av_set_from : TranslateMode
  av_sequence : Int

/-- `attribute_value_construct`: fresh cell before the front-end
fills it in. -/
def attribute_value_construct : AttributeValue :=
  { av_key := MPI_KEYVAL_INVALID
    av_value := 0
    av_set_from := TranslateMode.ATTR_C
    av_sequence := -1 }

/-- Cell built by `ompi_attr_set_c`: `av_value = attribute` (the
pointer bits), `av_set_from = OMPI_ATTRIBUTE_C`. -/
def set_cell_c (p : Nat) : AttributeValue :=
  { attribute_value_construct with
      av_value := p % 2 ^ 64
      av_set_from := TranslateMode.ATTR_C }

/-- Cell built by `ompi_attr_set_int`: `av_value = 0` then the int
slot (low 32 bits) receives the value. -/
def set_cell_int (n : Int) : AttributeValue :=
  { attribute_value_construct with
      av_value := toUnsigned 32 n
      av_set_from := TranslateMode.ATTR_INT }

/-- Cell built by `ompi_attr_set_fint`: `av_value = 0` then the fint
slot (low 32 bits) receives the value. -/
def set_cell_fint (n : Int) : AttributeValue :=
  { attribute_value_construct with
      av_value := toUnsigned 32 n
      av_set_from := TranslateMode.ATTR_FINT }

/-- Cell built by `ompi_attr_set_aint`: `av_value = (void *) attribute`,
the whole word. -/
def set_cell_aint (n : Int) : AttributeValue :=
  { attribute_value_construct with
      av_value := toUnsigned 64 n
      av_set_from := TranslateMode.ATTR_AINT }

/-- Result of `translate_to_c`: either the stored pointer itself or
the stable address of one of the cell's integer slots (carrying the
slot's current contents, which is what a dereferencing reader sees). -/
inductive CView where
  | value (w : Nat)
  | int_slot (w : Nat)
  | fint_slot (w : Nat)
  | aint_slot (w : Nat)

/-- `translate_to_c` (attribute.c:1406). -/
def translate_to_c (val : AttributeValue) : CView :=
  match val.av_set_from with
  | TranslateMode.ATTR_C => CView.value val.av_value
  | TranslateMode.ATTR_INT => CView.int_slot (val.av_value % 2 ^ 32)
  | TranslateMode.ATTR_FINT => CView.fint_slot (val.av_value % 2 ^ 32)
  | TranslateMode.ATTR_AINT => CView.aint_slot val.av_value

/-- `translate_to_fint` (attribute.c:1440).  Every branch reads a
32-bit slot of the word: `(MPI_Fint) *av_int_pointer` for the C and
INT cases, `*av_fint_pointer` for the FINT and AINT cases; on the
modelled platform both slots are the low 32 bits, read signed. -/
def translate_to_fint (val : AttributeValue) : Int :=
  match val.av_set_from with
  | TranslateMode.ATTR_C => toSigned 32 (val.av_value % 2 ^ 32)
  | TranslateMode.ATTR_INT => toSigned 32 (val.av_value % 2 ^ 32)
  | TranslateMode.ATTR_FINT => toSigned 32 (val.av_value % 2 ^ 32)
  | TranslateMode.ATTR_AINT => toSigned 32 (val.av_value % 2 ^ 32)

/-- `translate_to_aint` (attribute.c:1474).  C and AINT cases return
the whole word (`(MPI_Aint) av_value`); INT and FINT cases sign-extend
the 32-bit slot (`(MPI_Aint) *av_int_pointer`,
`(MPI_Aint) *av_fint_pointer`). -/
def translate_to_aint (val : AttributeValue) : Int :=
  match val.av_set_from with
  | TranslateMode.ATTR_C => toSigned 64 val.av_value
  | TranslateMode.ATTR_INT => toSigned 32 (val.av_value % 2 ^ 32)
  | TranslateMode.ATTR_FINT => toSigned 32 (val.av_value % 2 ^ 32)
  | TranslateMode.ATTR_AINT => toSigned 64 val.av_value

/-! ## Hash-table and bitmap primitives -/

/-- `opal_hash_table_get_value_uint32`: first binding of `k`. -/
def lookupA {α : Type} (l : List (Int × α)) (k : Int) : Option α :=
  match l with
  | [] => none
  | (k', v) :: t => if k' = k then some v else lookupA t k

/-- `opal_hash_table_set_value_uint32`: replace the binding of `k`
in place, or append a fresh one. -/
def setA {α : Type} (l : List (Int × α)) (k : Int) (v : α) : List (Int × α) :=
  match l with
  | [] => [(k, v)]
  | (k', v') :: t => if k' = k then (k, v) :: t else (k', v') :: setA t k v

/-- `opal_hash_table_remove_value_uint32`: drop the binding of `k`. -/
def removeA {α : Type} (l : List (Int × α)) (k : Int) : List (Int × α) :=
  match l with
  | [] => []
  | (k', v') :: t => if k' = k then t else (k', v') :: removeA t k

/-- `opal_bitmap_find_and_set_first_unset_bit` over a bitmap with max
size `bound`: the first index in `[0, bound)` whose bit is clear. -/
def find_first_unset (alloc : List Int) (bound : Nat) : Option Int :=
  (List.range bound).find? (fun k => ¬ alloc.contains ((k : Nat) : Int)) |>.map (fun k => ((k : Nat) : Int))

/-- `FREE_KEY` / `opal_bitmap_clear_bit`. -/
def clear_key_bit (alloc : List Int) (k : Int) : List Int :=
  alloc.filter (fun j => j ≠ k)

/-! ## Keyvals and the subsystem state -/

/-- `ompi_attribute_keyval_t`.  The user callbacks are modelled as the
oracle data the engine observes from them: `delete_status` is the
status the delete callback returns; `copy_status`, `copy_flag` and
`copy_out` are the status, flag and output word the copy callback
produces. -/
structure Keyval where
  attr_type : AttrType
  predefined : Bool
  fortran : Bool
  fortran_int : Bool
  delete_status : Status
  copy_status : Status
  copy_flag : Bool
  copy_out : Nat
  refcount : Nat

/-- A per-object attribute map (`opal_hash_table_t` keyed by the
attribute key). -/
abbrev AttrMap : Type := List (Int × AttributeValue)

/-- Registry from key to keyval descriptor (`keyval_hash`). -/
abbrev Registry : Type := List (Int × Keyval)

/-- The global mutable state of the subsystem: `attr_subsys`
(registry plus key bitmap with its bound), the `attr_sequence`
counter, and the process instance retain count the engine pins via
`ompi_mpi_instance_retain`/`_release`.  `attr_seq` counts the sets
performed; the stored `av_sequence` is its value as a 32-bit `int`
(see `seq_of_counter`). -/
structure EngineState where
  registry : Registry
  alloc_keys : List Int
  bitmap_max : Nat
  attr_seq : Nat
  retains : Nat

/-- `OBJ_RETAIN(keyval)`: bump the descriptor's refcount. -/
def retain_keyval (reg : Registry) (key : Int) : Registry :=
  match lookupA reg key with
  | none => reg
  | some kv => setA reg key { kv with refcount := kv.refcount + 1 }

/-- `OBJ_RELEASE(keyval)`: drop one reference; at zero the destructor
`ompi_attribute_keyval_destruct` removes the registry entry and clears
the key's bitmap bit. -/
def release_keyval (st : EngineState) (key : Int) : EngineState :=
  match lookupA st.registry key with
  | none => st
  | some kv =>
    if kv.refcount ≤ 1 then
      { st with registry := removeA st.registry key
                alloc_keys := clear_key_bit st.alloc_keys key }
    else
      { st with registry := setA st.registry key { kv with refcount := kv.refcount - 1 } }

/-! ## Keyval creation (attribute.c:624-748) -/

/-- `ompi_attr_create_keyval_impl`.  `kv` carries the descriptor
fields filled in before publication; `key_in` is the caller-supplied
key (used only for predefined keyvals); `hash_insert_ok` models
whether `opal_hash_table_set_value_uint32` finds the memory it needs.
Returns the status, the resulting key, and the new state. -/
def ompi_attr_create_keyval_impl (st : EngineState) (kv : Keyval) (key_in : Int)
    (hash_insert_ok : Bool) : Status × Int × EngineState :=
  if kv.predefined then
    if hash_insert_ok then
      (Status.SUCCESS, key_in,
        { st with registry := setA st.registry key_in { kv with refcount := 1 } })
    else
      -- OBJ_RELEASE(keyval) with keyval->key = *key already assigned:
      -- the destructor clears the (caller-reserved) key bit.
      (Status.ERR_OUT_OF_RESOURCE, key_in,
        { st with alloc_keys := clear_key_bit st.alloc_keys key_in })
  else
    match find_first_unset st.alloc_keys st.bitmap_max with
    | none =>
      -- CREATE_KEY failed; keyval->key is still -1, so OBJ_RELEASE's
      -- destructor touches neither the registry nor the bitmap.
      (Status.ERR_OUT_OF_RESOURCE, key_in, st)
    | some k =>
      let st1 := { st with alloc_keys := k :: st.alloc_keys }
      if hash_insert_ok then
        (Status.SUCCESS, k,
          { st1 with registry := setA st1.registry k { kv with refcount := 1 } })
      else
        (Status.ERR_OUT_OF_RESOURCE, k,
          { st1 with alloc_keys := clear_key_bit st1.alloc_keys k })

/-- `ompi_attr_create_keyval` (native extra_state variant): retains
the instance, runs the impl, and releases the retain again when the
impl fails. -/
def ompi_attr_create_keyval (st : EngineState) (kv : Keyval) (key_in : Int)
    (hash_insert_ok : Bool) : Status × Int × EngineState :=
  let st0 := { st with retains := st.retains + 1 }
  let r := ompi_attr_create_keyval_impl st0 kv key_in hash_insert_ok
  if r.1 ≠ Status.SUCCESS then
    (r.1, r.2.1, { r.2.2 with retains := r.2.2.retains - 1 })
  else r

/-- `ompi_attr_create_keyval_fint`: retains the instance and then
returns the impl's result directly -- there is no release on the
failure path. -/
def ompi_attr_create_keyval_fint (st : EngineState) (kv : Keyval) (key_in : Int)
    (hash_insert_ok : Bool) : Status × Int × EngineState :=
  let st0 := { st with retains := st.retains + 1 }
  ompi_attr_create_keyval_impl st0 kv key_in hash_insert_ok

/-- `ompi_attr_create_keyval_aint`: same shape as the fint variant,
likewise without a release on the failure path. -/
def ompi_attr_create_keyval_aint (st : EngineState) (kv : Keyval) (key_in : Int)
    (hash_insert_ok : Bool) : Status × Int × EngineState :=
  let st0 := { st with retains := st.retains + 1 }
  ompi_attr_create_keyval_impl st0 kv key_in hash_insert_ok

/-! ## Get (attribute.c:917-979, 1363-1395) -/

/-- `get_value`.  Returns the status, the found cell (if any) and the
flag the caller's `*flag` ends up holding: the flag is zeroed on
entry, `MPI_KEYVAL_INVALID` is surfaced when the registry lookup
reports not-found, an absent map yields success with flag 0, and a map
hit yields success with flag 1 and the cell. -/
def get_value (reg : Registry) (attr_hash : Option AttrMap) (key : Int) :
    Status × Option AttributeValue × Nat :=
  match lookupA reg key with
  | none => (Status.KEYVAL_INVALID, none, 0)
  | some _ =>
    match attr_hash with
    | none => (Status.SUCCESS, none, 0)
    | some h =>
      match lookupA h key with
      | some attr => (Status.SUCCESS, some attr, 1)
      | none => (Status.SUCCESS, none, 0)

/-- `ompi_attr_get_c`: the out-parameter `attribute` is threaded
through; it is overwritten with the C translation only when the call
succeeded with flag 1. -/
def ompi_attr_get_c (reg : Registry) (attr_hash : Option AttrMap) (key : Int)
    (attr_out : CView) : Status × CView × Nat :=
  match get_value reg attr_hash key with
  | (ret, some v, 1) =>
    if ret = Status.SUCCESS then (ret, translate_to_c v, 1) else (ret, attr_out, 1)
  | (ret, _, flag) => (ret, attr_out, flag)

/-- `ompi_attr_get_fint`. -/
def ompi_attr_get_fint (reg : Registry) (attr_hash : Option AttrMap) (key : Int)
    (attr_out : Int) : Status × Int × Nat :=
  match get_value reg attr_hash key with
  | (ret, some v, 1) =>
    if ret = Status.SUCCESS then (ret, translate_to_fint v, 1) else (ret, attr_out, 1)
  | (ret, _, flag) => (ret, attr_out, flag)

/-- `ompi_attr_get_aint`. -/
def ompi_attr_get_aint (reg : Registry) (attr_hash : Option AttrMap) (key : Int)
    (attr_out : Int) : Status × Int × Nat :=
  match get_value reg attr_hash key with
  | (ret, some v, 1) =>
    if ret = Status.SUCCESS then (ret, translate_to_aint v, 1) else (ret, attr_out, 1)
  | (ret, _, flag) => (ret, attr_out, flag)

/-! ## Set (attribute.c:1269-1351) -/

/-- The `av_sequence` value `set_value` stamps when the global counter
`attr_sequence` (a C `int` that has been incremented `k` times since
subsystem construction) is assigned and post-incremented: its 32-bit
two's-complement reading. -/
def seq_of_counter (k : Nat) : Int :=
  toSigned 32 (k % 2 ^ 32)

/-- `set_value`.  Validates the keyval, allocates the map when the
slot is empty, runs the delete callback on a pre-existing cell
(aborting with the callback's status when it fails), stamps key and
sequence, inserts, and retains the keyval when there was no old
cell. -/
def set_value (ty : AttrType) (st : EngineState) (attr_hash : Option AttrMap)
    (key : Int) (new_attr : AttributeValue) (predefined : Bool) :
    Status × EngineState × Option AttrMap :=
  match lookupA st.registry key with
  | none => (Status.ERR_BAD_PARAM, st, attr_hash)
  | some keyval =>
    if keyval.attr_type ≠ ty ∨ (¬ predefined ∧ keyval.predefined) then
      (Status.ERR_BAD_PARAM, st, attr_hash)
    else
      match lookupA (attr_hash.getD []) key with
      | some _old_attr =>
        -- DELETE_ATTR_CALLBACKS on the old cell
        if keyval.delete_status ≠ Status.SUCCESS then
          (keyval.delete_status, st, some (attr_hash.getD []))
        else
          (Status.SUCCESS, { st with attr_seq := st.attr_seq + 1 },
            some (setA (attr_hash.getD []) key
              { new_attr with av_key := key
                              av_sequence := seq_of_counter st.attr_seq }))
      | none =>
        (Status.SUCCESS,
          { st with attr_seq := st.attr_seq + 1
                    registry := retain_keyval st.registry key },
          some (setA (attr_hash.getD []) key
            { new_attr with av_key := key
                            av_sequence := seq_of_counter st.attr_seq }))

/-- `ompi_attr_set_c`. -/
def ompi_attr_set_c (ty : AttrType) (st : EngineState) (attr_hash : Option AttrMap)
    (key : Int) (attr_in : Nat) (predefined : Bool) :
    Status × EngineState × Option AttrMap :=
  set_value ty st attr_hash key (set_cell_c attr_in) predefined

/-- `ompi_attr_set_int`. -/
def ompi_attr_set_int (ty : AttrType) (st : EngineState) (attr_hash : Option AttrMap)
    (key : Int) (attr_in : Int) (predefined : Bool) :
    Status × EngineState × Option AttrMap :=
  set_value ty st attr_hash key (set_cell_int attr_in) predefined

/-- `ompi_attr_set_fint`. -/
def ompi_attr_set_fint (ty : AttrType) (st : EngineState) (attr_hash : Option AttrMap)
    (key : Int) (attr_in : Int) (predefined : Bool) :
    Status × EngineState × Option AttrMap :=
  set_value ty st attr_hash key (set_cell_fint attr_in) predefined

/-- `ompi_attr_set_aint`. -/
def ompi_attr_set_aint (ty : AttrType) (st : EngineState) (attr_hash : Option AttrMap)
    (key : Int) (attr_in : Int) (predefined : Bool) :
    Status × EngineState × Option AttrMap :=
  set_value ty st attr_hash key (set_cell_aint attr_in) predefined

/-! ## Delete (attribute.c:1108-1261) -/

/-- `ompi_attr_delete_impl`.  The fourth component is the trace of
cells on which the delete callback was invoked (empty or a
singleton), used to state ordering properties of `delete_all`.
Mirrors the source exactly: validation failures and a missing map
yield `BAD_PARAM` with no callback; a map miss leaves `ret` at the
hash-lookup's not-found status; a callback failure surfaces it with
nothing removed; on success the cell is removed and -- because `ret`
is `SUCCESS` at `exit` -- one keyval reference is dropped.  A map
miss reaches `exit` with `ret` not `SUCCESS`, so no reference is
dropped there. -/
def ompi_attr_delete_impl (ty : AttrType) (st : EngineState)
    (attr_hash : Option AttrMap) (key : Int) (predefined : Bool) :
    Status × EngineState × Option AttrMap × List AttributeValue :=
  match lookupA st.registry key with
  | none => (Status.ERR_BAD_PARAM, st, attr_hash, [])
  | some keyval =>
    if keyval.attr_type ≠ ty ∨ (¬ predefined ∧ keyval.predefined) then
      (Status.ERR_BAD_PARAM, st, attr_hash, [])
    else
      match attr_hash with
      | none => (Status.ERR_BAD_PARAM, st, none, [])
      | some h =>
        match lookupA h key with
        | some attr =>
          -- DELETE_ATTR_CALLBACKS
          if keyval.delete_status ≠ Status.SUCCESS then
            (keyval.delete_status, st, some h, [attr])
          else
            (Status.SUCCESS, release_keyval st key, some (removeA h key), [attr])
        | none => (Status.ERR_NOT_FOUND, st, some h, [])

/-- `ompi_attr_delete`: the front end just wraps the impl in the
lock. -/
def ompi_attr_delete (ty : AttrType) (st : EngineState)
    (attr_hash : Option AttrMap) (key : Int) (predefined : Bool) :
    Status × EngineState × Option AttrMap × List AttributeValue :=
  ompi_attr_delete_impl ty st attr_hash key predefined

/-- `compare_attr_sequence` (attribute.c:1503): qsort comparator,
difference of the two cells' sequence numbers. -/
def compare_attr_sequence (a b : AttributeValue) : Int :=
  a.av_sequence - b.av_sequence

/-- The order `qsort` sorts by: comparator at most zero. -/
def seq_le (a b : AttributeValue) : Prop :=
  compare_attr_sequence a b ≤ 0

instance : DecidableRel seq_le :=
  fun a b => inferInstanceAs (Decidable (compare_attr_sequence a b ≤ 0))

instance : IsTotal AttributeValue seq_le :=
  ⟨fun a b => by
    unfold seq_le compare_attr_sequence
    omega⟩

instance : IsTrans AttributeValue seq_le :=
  ⟨fun a b c h1 h2 => by
    unfold seq_le compare_attr_sequence at h1 h2 ⊢
    omega⟩

/-- The snapshot array after `qsort(attrs, ..., compare_attr_sequence)`:
sorted ascending by sequence. -/
def sort_by_seq (l : List AttributeValue) : List AttributeValue :=
  List.insertionSort seq_le l

/-- The `for (i = num_attrs - 1; i >= 0; i--)` sweep of
`ompi_attr_delete_all`: delete each snapshot cell's key in turn
(predefined allowed), stopping at the first non-success status.  The
final component accumulates the delete-callback trace. -/
def delete_sweep (ty : AttrType) :
    EngineState → Option AttrMap → List AttributeValue →
    Status × EngineState × Option AttrMap × List AttributeValue
  | st, h, [] => (Status.SUCCESS, st, h, [])
  | st, h, a :: rest =>
    match ompi_attr_delete_impl ty st h a.av_key true with
    | (ret, st', h', tr) =>
      if ret ≠ Status.SUCCESS then (ret, st', h', tr)
      else
        match delete_sweep ty st' h' rest with
        | (ret2, st2, h2, tr2) => (ret2, st2, h2, tr ++ tr2)

/-- `ompi_attr_delete_all`: snapshot, sort ascending by sequence,
then delete in descending order. -/
def ompi_attr_delete_all (ty : AttrType) (st : EngineState)
    (attr_hash : Option AttrMap) :
    Status × EngineState × Option AttrMap × List AttributeValue :=
  match attr_hash with
  | none => (Status.SUCCESS, st, none, [])
  | some h =>
    if h.length = 0 then (Status.SUCCESS, st, some h, [])
    else delete_sweep ty st (some h) (sort_by_seq (h.map Prod.snd)).reverse

/-! ## Copy all (attribute.c:988-1099) -/

/-- The new cell a successful copy callback with flag set produces
(`COPY_ATTR_CALLBACKS` output plus the `av_set_from` assignment at
attribute.c:1070-1078): Fortran-narrow keyvals store the out word in
the fint slot, Fortran-wide in the whole word, native in the whole
word. -/
def copied_cell (kv : Keyval) : AttributeValue :=
  if kv.fortran then
    if kv.fortran_int then
      { attribute_value_construct with
          av_value := kv.copy_out % 2 ^ 32
          av_set_from := TranslateMode.ATTR_FINT }
    else
      { attribute_value_construct with
          av_value := kv.copy_out % 2 ^ 64
          av_set_from := TranslateMode.ATTR_AINT }
  else
    { attribute_value_construct with
        av_value := kv.copy_out % 2 ^ 64
        av_set_from := TranslateMode.ATTR_C }

/-- The iteration of `ompi_attr_copy_all` over the old object's hash
entries. -/
def copy_loop (ty : AttrType) :
    EngineState → List (Int × AttributeValue) → Option AttrMap →
    Status × EngineState × Option AttrMap
  | st, [], newmap => (Status.SUCCESS, st, newmap)
  | st, (key, _old_attr) :: rest, newmap =>
    match lookupA st.registry key with
    | none => (Status.ERR_INTERN, st, newmap)
    | some kv =>
      if kv.copy_status ≠ Status.SUCCESS then (kv.copy_status, st, newmap)
      else if kv.copy_flag then
        match set_value ty st newmap key (copied_cell kv) true with
        | (ret, st', newmap') =>
          if ret ≠ Status.SUCCESS then (ret, st', newmap')
          else copy_loop ty st' rest newmap'
      else copy_loop ty st rest newmap

/-- `ompi_attr_copy_all`: an absent old map returns success
immediately; only then is the INSTANCE kind rejected with `ARG`;
otherwise the old entries are copied one by one. -/
def ompi_attr_copy_all (ty : AttrType) (st : EngineState)
    (oldattr_hash : Option AttrMap) (newattr_hash : Option AttrMap) :
    Status × EngineState × Option AttrMap :=
  match oldattr_hash with
  | none => (Status.SUCCESS, st, newattr_hash)
  | some h =>
    if ty = AttrType.INSTANCE_ATTR then (Status.ERR_ARG, st, newattr_hash)
    else copy_loop ty st h newattr_hash

/-! ## Helper definitions used by theorem statements -/

/-- The effect of `OBJ_RELEASE` on a registry binding: gone when the
count was at most one (the destructor ran), otherwise the count drops
by exactly one. -/
def release_effect (o : Option Keyval) : Option Keyval :=
  match o with
  | none => none
  | some kv =>
    if kv.refcount ≤ 1 then none else some { kv with refcount := kv.refcount - 1 }

/-- The registry entry a snapshot cell corresponds to. -/
def entry_of (a : AttributeValue) : Int × AttributeValue :=
  (a.av_key, a)

/-! ## Concrete fixtures for witnesses and counterexamples -/

/-- A non-predefined, native-convention keyval whose delete callback
returns `ds`. -/
def sample_keyval (ty : AttrType) (ds : Status) : Keyval :=
  { attr_type := ty
    predefined := false
    fortran := false
    fortran_int := false
    delete_status := ds
    copy_status := Status.SUCCESS
    copy_flag := true
    copy_out := 0
    refcount := 1 }

/-- Cells A, B, C inserted in that order (sequences 0, 1, 2) under
keys 1, 2, 3. -/
def cell_a : AttributeValue :=
  { av_key := 1, av_value := 0, av_set_from := TranslateMode.ATTR_C, av_sequence := 0 }

/-- Cell B, see `cell_a`. -/
def cell_b : AttributeValue :=
  { av_key := 2, av_value := 0, av_set_from := TranslateMode.ATTR_C, av_sequence := 1 }

/-- Cell C, see `cell_a`. -/
def cell_c : AttributeValue :=
  { av_key := 3, av_value := 0, av_set_from := TranslateMode.ATTR_C, av_sequence := 2 }

/-- The attribute map holding A, B, C. -/
def abc_map : AttrMap := [(1, cell_a), (2, cell_b), (3, cell_c)]

/-- State whose registry has succeeding delete callbacks for keys
1, 2, 3. -/
def abc_state_ok : EngineState :=
  { registry := [(1, sample_keyval AttrType.COMM_ATTR Status.SUCCESS),
                 (2, sample_keyval AttrType.COMM_ATTR Status.SUCCESS),
                 (3, sample_keyval AttrType.COMM_ATTR Status.SUCCESS)]
    alloc_keys := [1, 2, 3]
    bitmap_max := 4
    attr_seq := 3
    retains := 0 }

/-- Like `abc_state_ok` but key 2's delete callback fails with a user
status. -/
def abc_state_bfail : EngineState :=
  { abc_state_ok with
      registry := [(1, sample_keyval AttrType.COMM_ATTR Status.SUCCESS),
                   (2, sample_keyval AttrType.COMM_ATTR (Status.userErr 7)),
                   (3, sample_keyval AttrType.COMM_ATTR Status.SUCCESS)] }

/-- State whose key bitmap (max size 1) is exhausted. -/
def full_bitmap_state : EngineState :=
  { registry := []
    alloc_keys := [0]
    bitmap_max := 1
    attr_seq := 0
    retains := 5 }

/-- State with a free key (index 1) left in the bitmap, used to
exercise the registry-insert failure mode. -/
def room_state : EngineState :=
  { registry := []
    alloc_keys := [0]
    bitmap_max := 2
    attr_seq := 0
    retains := 5 }

/-- Registry holding key 7 with refcount 2 and no attribute cells. -/
def absent_key_state : EngineState :=
  { registry := [(7, { sample_keyval AttrType.COMM_ATTR Status.SUCCESS with refcount := 2 })]
    alloc_keys := [7]
    bitmap_max := 8
    attr_seq := 0
    retains := 0 }

/-! ## Association-list lemmas -/

theorem lookupA_setA_self {α : Type} (l : List (Int × α)) (k : Int) (v : α) :
    lookupA (setA l k v) k = some v := by
  induction l with
  | nil => simp [setA, lookupA]
  | cons p t ih =>
    obtain ⟨k', v'⟩ := p
    by_cases hk : k' = k
    · subst hk
      simp [setA, lookupA]
    · simp [setA, hk, lookupA, ih]

theorem lookupA_setA_ne {α : Type} (l : List (Int × α)) (k j : Int) (v : α)
    (h : j ≠ k) : lookupA (setA l k v) j = lookupA l j := by
  induction l with
  | nil =>
    simp only [setA, lookupA]
    rw [if_neg (Ne.symm h)]
  | cons p t ih =>
    obtain ⟨k', v'⟩ := p
    by_cases hk : k' = k
    · subst hk
      have hset : setA ((k', v') :: t) k' v = (k', v) :: t := by simp [setA]
      rw [hset]
      show (if k' = j then some v else lookupA t j) = if k' = j then some v' else lookupA t j
      rw [if_neg (Ne.symm h), if_neg (Ne.symm h)]
    · simp only [setA, if_neg hk, lookupA]
      by_cases hj : k' = j
      · rw [if_pos hj, if_pos hj]
      · rw [if_neg hj, if_neg hj]
        exact ih

theorem lookupA_removeA_ne {α : Type} (l : List (Int × α)) (k j : Int)
    (h : j ≠ k) : lookupA (removeA l k) j = lookupA l j := by
  induction l with
  | nil => simp [removeA]
  | cons p t ih =>
    obtain ⟨k', v'⟩ := p
    by_cases hk : k' = k
    · subst hk
      have hrem : removeA ((k', v') :: t) k' = t := by simp [removeA]
      rw [hrem]
      show lookupA t j = if k' = j then some v' else lookupA t j
      rw [if_neg (Ne.symm h)]
    · simp only [removeA, if_neg hk, lookupA]
      by_cases hj : k' = j
      · rw [if_pos hj, if_pos hj]
      · rw [if_neg hj, if_neg hj]
        exact ih

theorem mem_keys_of_lookupA {α : Type} (l : List (Int × α)) (k : Int) (v : α)
    (h : lookupA l k = some v) : k ∈ l.map Prod.fst := by
  induction l with
  | nil => simp [lookupA] at h
  | cons p t ih =>
    obtain ⟨k', v'⟩ := p
    by_cases hk : k' = k
    · simp [hk]
    · simp only [lookupA, if_neg hk] at h
      simp [ih h]

theorem lookupA_removeA_self {α : Type} (l : List (Int × α)) (k : Int)
    (hnd : (l.map Prod.fst).Nodup) : lookupA (removeA l k) k = none := by
  induction l with
  | nil => simp [removeA, lookupA]
  | cons p t ih =>
    obtain ⟨k', v'⟩ := p
    simp only [List.map_cons, List.nodup_cons] at hnd
    by_cases hk : k' = k
    · subst hk
      have hrem : removeA ((k', v') :: t) k' = t := by simp [removeA]
      rw [hrem]
      cases hv : lookupA t k' with
      | none => rfl
      | some w => exact absurd (mem_keys_of_lookupA t k' w hv) hnd.1
    · simp [removeA, hk, lookupA, ih hnd.2]

theorem lookupA_of_mem {α : Type} (l : List (Int × α)) (k : Int) (v : α)
    (hnd : (l.map Prod.fst).Nodup) (hm : (k, v) ∈ l) : lookupA l k = some v := by
  induction l with
  | nil => simp at hm
  | cons p t ih =>
    obtain ⟨k', v'⟩ := p
    simp only [List.map_cons, List.nodup_cons] at hnd
    rcases List.mem_cons.mp hm with he | ht
    · rw [← he]
      simp [lookupA]
    · by_cases hk : k' = k
      · subst hk
        exact absurd (by simpa using List.mem_map_of_mem Prod.fst ht) hnd.1
      · simp [lookupA, hk, ih hnd.2 ht]

theorem removeA_cons_perm {α : Type} (l : List (Int × α)) (k : Int) (v : α)
    (hnd : (l.map Prod.fst).Nodup) (hm : (k, v) ∈ l) :
    List.Perm l ((k, v) :: removeA l k) := by
  induction l with
  | nil => simp at hm
  | cons p t ih =>
    obtain ⟨k', v'⟩ := p
    simp only [List.map_cons, List.nodup_cons] at hnd
    rcases List.mem_cons.mp hm with he | ht
    · have h1 : k = k' := congrArg Prod.fst he
      have h2 : v = v' := congrArg Prod.snd he
      subst h1
      subst h2
      have hrem : removeA ((k, v) :: t) k = t := by simp [removeA]
      rw [hrem]
    · have hk : k' ≠ k := by
        intro e
        subst e
        exact absurd (by simpa using List.mem_map_of_mem Prod.fst ht) hnd.1
      have hrem : removeA ((k', v') :: t) k = (k', v') :: removeA t k := by
        simp [removeA, hk]
      rw [hrem]
      exact ((ih hnd.2 ht).cons (k', v')).trans (List.Perm.swap (k, v) (k', v') (removeA t k))

theorem keys_removeA_sublist {α : Type} (l : List (Int × α)) (k : Int) :
    ((removeA l k).map Prod.fst).Sublist (l.map Prod.fst) := by
  induction l with
  | nil => simp [removeA]
  | cons p t ih =>
    obtain ⟨k', v'⟩ := p
    by_cases hk : k' = k
    · simp only [removeA, if_pos hk, List.map_cons]
      exact List.sublist_cons_self _ _
    · simp only [removeA, if_neg hk, List.map_cons]
      exact ih.cons₂ k'

theorem keys_removeA_nodup {α : Type} (l : List (Int × α)) (k : Int)
    (hnd : (l.map Prod.fst).Nodup) : ((removeA l k).map Prod.fst).Nodup :=
  (keys_removeA_sublist l k).nodup hnd

theorem mem_keys_setA {α : Type} (l : List (Int × α)) (k j : Int) (v : α)
    (h : j ∈ (setA l k v).map Prod.fst) : j = k ∨ j ∈ l.map Prod.fst := by
  induction l with
  | nil =>
    simp only [setA, List.map_cons, List.map_nil, List.mem_cons,
      List.not_mem_nil, or_false] at h
    exact Or.inl h
  | cons p t ih =>
    obtain ⟨k', v'⟩ := p
    by_cases hk : k' = k
    · simp only [setA, if_pos hk, List.map_cons, List.mem_cons] at h
      rcases h with h | h
      · exact Or.inl h
      · exact Or.inr (by simp [h])
    · simp only [setA, if_neg hk, List.map_cons, List.mem_cons] at h
      rcases h with h | h
      · exact Or.inr (by simp [h])
      · rcases ih h with h | h
        · exact Or.inl h
        · exact Or.inr (by simp [h])

theorem keys_setA_nodup {α : Type} (l : List (Int × α)) (k : Int) (v : α)
    (hnd : (l.map Prod.fst).Nodup) : ((setA l k v).map Prod.fst).Nodup := by
  induction l with
  | nil => simp [setA]
  | cons p t ih =>
    obtain ⟨k', v'⟩ := p
    simp only [List.map_cons, List.nodup_cons] at hnd
    by_cases hk : k' = k
    · subst hk
      have hset : setA ((k', v') :: t) k' v = (k', v) :: t := by simp [setA]
      rw [hset]
      simp only [List.map_cons, List.nodup_cons]
      exact hnd
    · simp only [setA, if_neg hk, List.map_cons, List.nodup_cons]
      refine ⟨fun hmem => ?_, ih hnd.2⟩
      rcases mem_keys_setA t k k' v hmem with h | h
      · exact hk h
      · exact hnd.1 h

/-! ## Arithmetic lemmas for the translation table -/

theorem toUnsigned_64_mod_32 (n : Int) :
    toUnsigned 64 n % 2 ^ 32 = toUnsigned 32 n := by
  unfold toUnsigned
  have h64 : (2 : Int) ^ 64 = 18446744073709551616 := by norm_num
  have h32 : (2 : Int) ^ 32 = 4294967296 := by norm_num
  have h32n : (2 : Nat) ^ 32 = 4294967296 := by norm_num
  rw [h64, h32, h32n]
  omega

theorem toUnsigned_lt (bits : Nat) (n : Int) : toUnsigned bits n < 2 ^ bits := by
  unfold toUnsigned
  have hpos : (0 : Int) < 2 ^ bits := by positivity
  have hlt := Int.emod_lt_of_pos n hpos
  have hnn := Int.emod_nonneg n (ne_of_gt hpos)
  have hcast : ((2 ^ bits : Nat) : Int) = 2 ^ bits := by push_cast; ring
  omega

theorem toSigned_toUnsigned_32 (m : Int) (h1 : -(2 ^ 31 : Int) ≤ m)
    (h2 : m < 2 ^ 31) : toSigned 32 (toUnsigned 32 m) = m := by
  unfold toSigned toUnsigned
  have h32 : (2 : Int) ^ 32 = 4294967296 := by norm_num
  have h32n : (2 : Nat) ^ 32 = 4294967296 := by norm_num
  have h31n : (2 : Nat) ^ (32 - 1) = 2147483648 := by norm_num
  have h31 : (2 : Int) ^ 31 = 2147483648 := by norm_num
  rw [h32, h32n, h31n]
  rw [h32] at *
  rw [h31] at h1 h2
  split_ifs with hc
  · omega
  · omega

theorem toSigned_toUnsigned_64 (m : Int) (h1 : -(2 ^ 63 : Int) ≤ m)
    (h2 : m < 2 ^ 63) : toSigned 64 (toUnsigned 64 m) = m := by
  unfold toSigned toUnsigned
  have h64 : (2 : Int) ^ 64 = 18446744073709551616 := by norm_num
  have h64n : (2 : Nat) ^ 64 = 18446744073709551616 := by norm_num
  have h63n : (2 : Nat) ^ (64 - 1) = 9223372036854775808 := by norm_num
  have h63 : (2 : Int) ^ 63 = 9223372036854775808 := by norm_num
  rw [h64, h64n, h63n]
  rw [h63] at h1 h2
  split_ifs with hc
  · omega
  · omega

theorem nat_mod_32_self (w : Nat) (h : w < 2 ^ 32) : w % 2 ^ 32 = w :=
  Nat.mod_eq_of_lt h

/-! ## Claim theorems -/

/-- C6: a cell written in `AintMode` reads back as FINT as the narrow
32-bit two's-complement truncation of the written value (`1 <<< 40`
reads back `0` as FINT while the AINT read returns `1 <<< 40`
identically), a cell written in `FintMode` reads back as AINT as the
sign-extension of its 32-bit pattern (equal to the written value for
in-range values), and same-mode reads are the identity. -/
theorem translate_cross_mode_spec (n m : Int)
    (hn1 : -(2 ^ 63 : Int) ≤ n) (hn2 : n < 2 ^ 63)
    (hm1 : -(2 ^ 31 : Int) ≤ m) (hm2 : m < 2 ^ 31) :
    translate_to_fint (set_cell_aint n) = toSigned 32 (toUnsigned 32 n) ∧
    translate_to_aint (set_cell_fint m) = toSigned 32 (toUnsigned 32 m) ∧
    translate_to_aint (set_cell_fint m) = m ∧
    translate_to_aint (set_cell_aint n) = n ∧
    translate_to_fint (set_cell_fint m) = m ∧
    translate_to_fint (set_cell_aint (2 ^ 40)) = 0 ∧
    translate_to_aint (set_cell_aint (2 ^ 40)) = 2 ^ 40 := by
  have hfint : translate_to_aint (set_cell_fint m) = toSigned 32 (toUnsigned 32 m) := by
    show toSigned 32 (toUnsigned 32 m % 2 ^ 32) = toSigned 32 (toUnsigned 32 m)
    rw [nat_mod_32_self _ (toUnsigned_lt 32 m)]
  refine ⟨?_, hfint, ?_, ?_, ?_, rfl, rfl⟩
  · show toSigned 32 (toUnsigned 64 n % 2 ^ 32) = toSigned 32 (toUnsigned 32 n)
    rw [toUnsigned_64_mod_32]
  · rw [hfint]
    exact toSigned_toUnsigned_32 m hm1 hm2
  · show toSigned 64 (toUnsigned 64 n) = n
    exact toSigned_toUnsigned_64 n hn1 hn2
  · show toSigned 32 (toUnsigned 32 m % 2 ^ 32) = m
    rw [nat_mod_32_self _ (toUnsigned_lt 32 m)]
    exact toSigned_toUnsigned_32 m hm1 hm2

/-- Witness for C6 at `n = 2 ^ 40`, `m = -5`. -/
theorem translate_cross_mode_spec_witness :
    translate_to_fint (set_cell_aint (2 ^ 40)) = toSigned 32 (toUnsigned 32 (2 ^ 40)) ∧
    translate_to_aint (set_cell_fint (-5)) = -5 ∧
    translate_to_fint (set_cell_fint (-5)) = -5 :=
  ⟨(translate_cross_mode_spec (2 ^ 40) (-5) (by norm_num) (by norm_num)
      (by norm_num) (by norm_num)).1,
   (translate_cross_mode_spec (2 ^ 40) (-5) (by norm_num) (by norm_num)
      (by norm_num) (by norm_num)).2.2.1,
   (translate_cross_mode_spec (2 ^ 40) (-5) (by norm_num) (by norm_num)
      (by norm_num) (by norm_num)).2.2.2.2.1⟩

/-- C1: evaluation of the failing create_keyval paths.  With the key
bitmap exhausted (and likewise when the registry insert fails), every
variant returns `OUT_OF_RESOURCE` with the descriptor freed and the
registry unchanged, but only the native-extra-state variant releases
the entry instance retain: the fint and aint variants leave the
retain count one higher than before the call, diverging from the
spec. -/
theorem create_keyval_failure_retain_evaluation :
    (ompi_attr_create_keyval full_bitmap_state
        (sample_keyval AttrType.COMM_ATTR Status.SUCCESS) (-1) true).1 =
      Status.ERR_OUT_OF_RESOURCE ∧
    (ompi_attr_create_keyval full_bitmap_state
        (sample_keyval AttrType.COMM_ATTR Status.SUCCESS) (-1) true).2.2.retains =
      full_bitmap_state.retains ∧
    (ompi_attr_create_keyval full_bitmap_state
        (sample_keyval AttrType.COMM_ATTR Status.SUCCESS) (-1) true).2.2.registry = [] ∧
    (ompi_attr_create_keyval_fint full_bitmap_state
        (sample_keyval AttrType.COMM_ATTR Status.SUCCESS) (-1) true).1 =
      Status.ERR_OUT_OF_RESOURCE ∧
    (ompi_attr_create_keyval_fint full_bitmap_state
        (sample_keyval AttrType.COMM_ATTR Status.SUCCESS) (-1) true).2.2.retains =
      full_bitmap_state.retains + 1 ∧
    (ompi_attr_create_keyval_aint full_bitmap_state
        (sample_keyval AttrType.COMM_ATTR Status.SUCCESS) (-1) true).1 =
      Status.ERR_OUT_OF_RESOURCE ∧
    (ompi_attr_create_keyval_aint full_bitmap_state
        (sample_keyval AttrType.COMM_ATTR Status.SUCCESS) (-1) true).2.2.retains =
      full_bitmap_state.retains + 1 ∧
    (ompi_attr_create_keyval_fint room_state
        (sample_keyval AttrType.COMM_ATTR Status.SUCCESS) (-1) false).1 =
      Status.ERR_OUT_OF_RESOURCE ∧
    (ompi_attr_create_keyval_fint room_state
        (sample_keyval AttrType.COMM_ATTR Status.SUCCESS) (-1) false).2.2.retains =
      room_state.retains + 1 ∧
    (ompi_attr_create_keyval room_state
        (sample_keyval AttrType.COMM_ATTR Status.SUCCESS) (-1) false).2.2.retains =
      room_state.retains :=
  ⟨rfl, rfl, rfl, rfl, rfl, rfl, rfl, rfl, rfl, rfl⟩

/-- C3 counterexample: `copy_all` on an INSTANCE host whose old
attribute map is absent (NULL) returns `SUCCESS`, not `ARG`: the
NULL-map early return precedes the INSTANCE check. -/
theorem copy_all_instance_null_map_counterexample :
    ompi_attr_copy_all AttrType.INSTANCE_ATTR abc_state_ok none (some []) =
      (Status.SUCCESS, abc_state_ok, some []) ∧
    Status.SUCCESS ≠ Status.ERR_ARG :=
  ⟨rfl, fun h => Status.noConfusion h⟩

/-- C3 amended: whenever the old attribute map is present, `copy_all`
with host kind INSTANCE returns `ARG` and copies nothing (state and
new map untouched); when the old map is absent it returns `SUCCESS`
and likewise copies nothing. -/
theorem copy_all_instance_rejected (st : EngineState) (h : AttrMap)
    (newmap : Option AttrMap) :
    ompi_attr_copy_all AttrType.INSTANCE_ATTR st (some h) newmap =
      (Status.ERR_ARG, st, newmap) ∧
    ompi_attr_copy_all AttrType.INSTANCE_ATTR st none newmap =
      (Status.SUCCESS, st, newmap) := by
  constructor
  · rfl
  · rfl

/-- C9 counterexample: the sequence counter is a 32-bit `int`, not a
64-bit counter; between the 2^31-th and the (2^31+1)-th cell ever
created the assigned sequence wraps, so strict monotonic increase
over all cells ever created fails. -/
theorem attr_sequence_wrap_counterexample :
    seq_of_counter (2 ^ 31) < seq_of_counter (2 ^ 31 - 1) := by
  decide

/-- C9 amended: within a subsystem lifetime in which fewer than 2^31
cells are ever created, the sequences stamped at insertion are
strictly monotonically increasing (hence totally order any two
cells); each successful `set_value` stamps the inserted cell with
`seq_of_counter` of the current counter and advances the counter by
one. -/
theorem attr_sequence_monotone (j k : Nat) (hjk : j < k) (hk : k < 2 ^ 31) :
    seq_of_counter j < seq_of_counter k ∧
    (∀ ty st mh key cell pd ret st' mh',
      set_value ty st mh key cell pd = (ret, st', mh') →
      ret = Status.SUCCESS →
      st'.attr_seq = st.attr_seq + 1 ∧
      ∃ c', lookupA (mh'.getD []) key = some c' ∧
        c'.av_sequence = seq_of_counter st.attr_seq) := by
  constructor
  · unfold seq_of_counter toSigned
    have h32 : (2 : Nat) ^ 32 = 4294967296 := by norm_num
    have h32i : (2 : Int) ^ 32 = 4294967296 := by norm_num
    have h31 : (2 : Nat) ^ (32 - 1) = 2147483648 := by norm_num
    have h31a : (2 : Nat) ^ 31 = 2147483648 := by norm_num
    rw [h32, h32i, h31]
    rw [h31a] at hk
    split_ifs <;> omega
  · intro ty st mh key cell pd ret st' mh' heq hret
    subst hret
    unfold set_value at heq
    split at heq
    · simp at heq
    · split at heq
      · simp at heq
      · split at heq
        · next hds =>
          split at heq
          · simp only [Prod.mk.injEq] at heq
            exact absurd heq.1 (by assumption)
          · simp only [Prod.mk.injEq] at heq
            obtain ⟨-, h2, h3⟩ := heq
            subst h2
            subst h3
            exact ⟨rfl, _, lookupA_setA_self _ _ _, rfl⟩
        · simp only [Prod.mk.injEq] at heq
          obtain ⟨-, h2, h3⟩ := heq
          subst h2
          subst h3
          exact ⟨rfl, _, lookupA_setA_self _ _ _, rfl⟩

/-- Witness for C9 (amended) at `j = 0`, `k = 1` and a concrete
successful `set_value`. -/
theorem attr_sequence_monotone_witness :
    seq_of_counter 0 < seq_of_counter 1 ∧
    (set_value AttrType.COMM_ATTR abc_state_ok (some []) 1 cell_a false).2.1.attr_seq =
      abc_state_ok.attr_seq + 1 :=
  ⟨(attr_sequence_monotone 0 1 (by decide) (by norm_num)).1,
   ((attr_sequence_monotone 0 1 (by decide) (by norm_num)).2
      AttrType.COMM_ATTR abc_state_ok (some []) 1 cell_a false _ _ _ rfl (by decide)).1⟩

/-- C2 counterexample: deleting a key that is valid in the registry
(refcount 2, matching host kind, not predefined) but absent from the
host's attribute map returns `ERR_NOT_FOUND` and leaves the state --
in particular the descriptor's refcount -- completely unchanged; no
reference is dropped. -/
theorem delete_absent_key_refcount_counterexample :
    ompi_attr_delete_impl AttrType.COMM_ATTR absent_key_state (some []) 7 false =
      (Status.ERR_NOT_FOUND, absent_key_state, some [], []) ∧
    (lookupA absent_key_state.registry 7).map Keyval.refcount = some 2 :=
  ⟨rfl, rfl⟩

/-- C2 amended: with a valid descriptor (matching host kind,
Predefined permitting the caller), a successful removal -- cell
present and delete callback succeeding -- drops exactly one reference
on the descriptor (the entry disappears when the count was 1);
when the key is absent from the map the call instead returns
`ERR_NOT_FOUND` and the descriptor's refcount is unchanged. -/
theorem delete_impl_refcount_drop (ty : AttrType) (st : EngineState) (h : AttrMap)
    (key : Int) (kv : Keyval)
    (hregnd : (st.registry.map Prod.fst).Nodup)
    (hkv : lookupA st.registry key = some kv)
    (hty : kv.attr_type = ty)
    (hpd : kv.predefined = false) :
    (∀ attr, lookupA h key = some attr → kv.delete_status = Status.SUCCESS →
      ompi_attr_delete_impl ty st (some h) key false =
        (Status.SUCCESS, release_keyval st key, some (removeA h key), [attr]) ∧
      lookupA (release_keyval st key).registry key =
        release_effect (some kv)) ∧
    (lookupA h key = none →
      ompi_attr_delete_impl ty st (some h) key false =
        (Status.ERR_NOT_FOUND, st, some h, [])) := by
  have hguard : ¬ (kv.attr_type ≠ ty ∨ (¬ false ∧ kv.predefined)) := by
    simp [hty, hpd]
  constructor
  · intro attr hattr hds
    constructor
    · unfold ompi_attr_delete_impl
      rw [hkv]
      dsimp only
      rw [if_neg hguard]
      rw [hattr]
      dsimp only
      rw [if_neg (by simp [hds])]
    · unfold release_keyval release_effect
      rw [hkv]
      dsimp only
      by_cases hrc : kv.refcount ≤ 1
      · rw [if_pos hrc, if_pos hrc]
        exact lookupA_removeA_self st.registry key hregnd
      · rw [if_neg hrc, if_neg hrc]
        exact lookupA_setA_self st.registry key _
  · intro habs
    unfold ompi_attr_delete_impl
    rw [hkv]
    dsimp only
    rw [if_neg hguard]
    rw [habs]

/-- Witness for C2 (amended): a concrete successful removal dropping
the refcount from 1 (the descriptor entry disappears), and a concrete
absent-key call. -/
theorem delete_impl_refcount_drop_witness :
    ompi_attr_delete_impl AttrType.COMM_ATTR abc_state_ok (some abc_map) 1 false =
      (Status.SUCCESS, release_keyval abc_state_ok 1, some (removeA abc_map 1), [cell_a]) ∧
    lookupA (release_keyval abc_state_ok 1).registry 1 =
      release_effect (some (sample_keyval AttrType.COMM_ATTR Status.SUCCESS)) ∧
    ompi_attr_delete_impl AttrType.COMM_ATTR absent_key_state (some [(9, cell_a)]) 7 false =
      (Status.ERR_NOT_FOUND, absent_key_state, some [(9, cell_a)], []) := by
  refine ⟨?_, ?_, ?_⟩
  · exact (((delete_impl_refcount_drop AttrType.COMM_ATTR abc_state_ok abc_map 1
      (sample_keyval AttrType.COMM_ATTR Status.SUCCESS)
      (by decide) rfl rfl rfl).1 cell_a rfl rfl).1)
  · exact (((delete_impl_refcount_drop AttrType.COMM_ATTR abc_state_ok abc_map 1
      (sample_keyval AttrType.COMM_ATTR Status.SUCCESS)
      (by decide) rfl rfl rfl).1 cell_a rfl rfl).2)
  · exact ((delete_impl_refcount_drop AttrType.COMM_ATTR absent_key_state [(9, cell_a)] 7
      { sample_keyval AttrType.COMM_ATTR Status.SUCCESS with refcount := 2 }
      (by decide) rfl rfl rfl).2 rfl)

/-- C7: `get_value` fails with the invalid-key status when the
registry has no descriptor for the key; with the key registered and
the map absent it returns success with flag 0; with the map present
it returns success with flag 1 and the cell on a hit and success with
flag 0 on a miss. -/
theorem get_value_spec (reg : Registry) (mh : Option AttrMap) (key : Int) :
    (lookupA reg key = none →
      get_value reg mh key = (Status.KEYVAL_INVALID, none, 0)) ∧
    (∀ kv, lookupA reg key = some kv →
      (mh = none → get_value reg mh key = (Status.SUCCESS, none, 0)) ∧
      (∀ h, mh = some h →
        (∀ a, lookupA h key = some a →
          get_value reg mh key = (Status.SUCCESS, some a, 1)) ∧
        (lookupA h key = none →
          get_value reg mh key = (Status.SUCCESS, none, 0)))) := by
  refine ⟨fun hnone => ?_,
    fun kv hkv => ⟨fun hmh => ?_, fun h hmh => ⟨fun a ha => ?_, fun ha => ?_⟩⟩⟩
  · unfold get_value
    rw [hnone]
  · subst hmh
    unfold get_value
    rw [hkv]
  · subst hmh
    unfold get_value
    rw [hkv]
    dsimp only
    rw [ha]
  · subst hmh
    unfold get_value
    rw [hkv]
    dsimp only
    rw [ha]

/-- Witness for C7: a concrete unknown key, absent map, hit, and
miss. -/
theorem get_value_spec_witness :
    get_value abc_state_ok.registry (some abc_map) 9 = (Status.KEYVAL_INVALID, none, 0) ∧
    get_value abc_state_ok.registry none 1 = (Status.SUCCESS, none, 0) ∧
    get_value abc_state_ok.registry (some abc_map) 1 = (Status.SUCCESS, some cell_a, 1) ∧
    get_value abc_state_ok.registry (some [(2, cell_b)]) 1 = (Status.SUCCESS, none, 0) :=
  ⟨(get_value_spec abc_state_ok.registry (some abc_map) 9).1 rfl,
   ((get_value_spec abc_state_ok.registry none 1).2
      (sample_keyval AttrType.COMM_ATTR Status.SUCCESS) rfl).1 rfl,
   (((get_value_spec abc_state_ok.registry (some abc_map) 1).2
      (sample_keyval AttrType.COMM_ATTR Status.SUCCESS) rfl).2
      abc_map rfl).1 cell_a rfl,
   (((get_value_spec abc_state_ok.registry (some [(2, cell_b)]) 1).2
      (sample_keyval AttrType.COMM_ATTR Status.SUCCESS) rfl).2
      [(2, cell_b)] rfl).2 rfl⟩

/-- Case split on the shape of a `get_value` result: invalid key, no
cell (flag 0), or a cell with flag 1. -/
theorem get_value_shape (reg : Registry) (mh : Option AttrMap) (key : Int) :
    get_value reg mh key = (Status.KEYVAL_INVALID, none, 0) ∨
    get_value reg mh key = (Status.SUCCESS, none, 0) ∨
    ∃ a, get_value reg mh key = (Status.SUCCESS, some a, 1) := by
  unfold get_value
  cases lookupA reg key with
  | none => exact Or.inl rfl
  | some kv =>
    dsimp only
    cases mh with
    | none => exact Or.inr (Or.inl rfl)
    | some h =>
      dsimp only
      cases lookupA h key with
      | none => exact Or.inr (Or.inl rfl)
      | some a => exact Or.inr (Or.inr ⟨a, rfl⟩)

/-- C10: each of the three read front-ends leaves the output
attribute parameter unmodified whenever the call comes back with flag
0, and writes the translated value exactly when flag is 1. -/
theorem get_frame_effect (reg : Registry) (mh : Option AttrMap) (key : Int)
    (vc : CView) (vf va : Int) :
    ((ompi_attr_get_c reg mh key vc).2.2 = 0 →
      (ompi_attr_get_c reg mh key vc).2.1 = vc) ∧
    (∀ a, get_value reg mh key = (Status.SUCCESS, some a, 1) →
      ompi_attr_get_c reg mh key vc = (Status.SUCCESS, translate_to_c a, 1)) ∧
    ((ompi_attr_get_fint reg mh key vf).2.2 = 0 →
      (ompi_attr_get_fint reg mh key vf).2.1 = vf) ∧
    (∀ a, get_value reg mh key = (Status.SUCCESS, some a, 1) →
      ompi_attr_get_fint reg mh key vf = (Status.SUCCESS, translate_to_fint a, 1)) ∧
    ((ompi_attr_get_aint reg mh key va).2.2 = 0 →
      (ompi_attr_get_aint reg mh key va).2.1 = va) ∧
    (∀ a, get_value reg mh key = (Status.SUCCESS, some a, 1) →
      ompi_attr_get_aint reg mh key va = (Status.SUCCESS, translate_to_aint a, 1)) := by
  have hc := get_value_shape reg mh key
  refine ⟨fun hflag => ?_, fun a h => ?_, fun hflag => ?_, fun a h => ?_,
    fun hflag => ?_, fun a h => ?_⟩
  · rcases hc with h | h | ⟨a, h⟩
    · simp [ompi_attr_get_c, h]
    · simp [ompi_attr_get_c, h]
    · simp [ompi_attr_get_c, h] at hflag
  · simp [ompi_attr_get_c, h]
  · rcases hc with h | h | ⟨a, h⟩
    · simp [ompi_attr_get_fint, h]
    · simp [ompi_attr_get_fint, h]
    · simp [ompi_attr_get_fint, h] at hflag
  · simp [ompi_attr_get_fint, h]
  · rcases hc with h | h | ⟨a, h⟩
    · simp [ompi_attr_get_aint, h]
    · simp [ompi_attr_get_aint, h]
    · simp [ompi_attr_get_aint, h] at hflag
  · simp [ompi_attr_get_aint, h]

/-- Witness for C10: a concrete miss leaves the out parameters
untouched; a concrete hit writes the translations. -/
theorem get_frame_effect_witness :
    (ompi_attr_get_c abc_state_ok.registry none 1 (CView.value 99)).2.1 = CView.value 99 ∧
    (ompi_attr_get_fint abc_state_ok.registry none 1 42).2.1 = 42 ∧
    (ompi_attr_get_aint abc_state_ok.registry none 1 43).2.1 = 43 ∧
    ompi_attr_get_c abc_state_ok.registry (some abc_map) 1 (CView.value 99) =
      (Status.SUCCESS, translate_to_c cell_a, 1) :=
  ⟨(get_frame_effect abc_state_ok.registry none 1 (CView.value 99) 42 43).1 rfl,
   (get_frame_effect abc_state_ok.registry none 1 (CView.value 99) 42 43).2.2.1 rfl,
   (get_frame_effect abc_state_ok.registry none 1 (CView.value 99) 42 43).2.2.2.2.1 rfl,
   (get_frame_effect abc_state_ok.registry (some abc_map) 1 (CView.value 99) 42 43).2.1
      cell_a rfl⟩

/-- C8: a delete callback failing with status `s` makes the operation
return `s` unchanged and leaves the attribute map exactly as observed
before the callback -- the old cell still bound under its key -- and
the whole engine state (in particular the descriptor's refcount)
untouched; this holds both for `delete` and for a `set` overwriting
an existing cell. -/
theorem callback_failure_frame (ty : AttrType) (st : EngineState) (h : AttrMap)
    (key : Int) (kv : Keyval) (old new_attr : AttributeValue)
    (hkv : lookupA st.registry key = some kv)
    (hty : kv.attr_type = ty)
    (hpd : kv.predefined = false)
    (hold : lookupA h key = some old)
    (hfail : kv.delete_status ≠ Status.SUCCESS) :
    ompi_attr_delete_impl ty st (some h) key false =
      (kv.delete_status, st, some h, [old]) ∧
    set_value ty st (some h) key new_attr false =
      (kv.delete_status, st, some h) := by
  have hguard : ¬ (kv.attr_type ≠ ty ∨ (¬ false ∧ kv.predefined)) := by
    simp [hty, hpd]
  constructor
  · unfold ompi_attr_delete_impl
    rw [hkv]
    dsimp only
    rw [if_neg hguard]
    rw [hold]
    dsimp only
    rw [if_pos hfail]
  · unfold set_value
    rw [hkv]
    dsimp only
    rw [if_neg hguard]
    dsimp only [Option.getD]
    rw [hold]
    dsimp only
    rw [if_pos hfail]

/-- Witness for C8 at the concrete failing key 2 of
`abc_state_bfail`. -/
theorem callback_failure_frame_witness :
    ompi_attr_delete_impl AttrType.COMM_ATTR abc_state_bfail (some abc_map) 2 false =
      (Status.userErr 7, abc_state_bfail, some abc_map, [cell_b]) ∧
    set_value AttrType.COMM_ATTR abc_state_bfail (some abc_map) 2 cell_c false =
      (Status.userErr 7, abc_state_bfail, some abc_map) :=
  ⟨(callback_failure_frame AttrType.COMM_ATTR abc_state_bfail abc_map 2
      (sample_keyval AttrType.COMM_ATTR (Status.userErr 7)) cell_b cell_c
      rfl rfl rfl rfl (fun h => Status.noConfusion h)).1,
   (callback_failure_frame AttrType.COMM_ATTR abc_state_bfail abc_map 2
      (sample_keyval AttrType.COMM_ATTR (Status.userErr 7)) cell_b cell_c
      rfl rfl rfl rfl (fun h => Status.noConfusion h)).2⟩

/-! ## Lemmas about `release_keyval` and single sweep steps -/

theorem release_keyval_lookup_ne (st : EngineState) (k j : Int) (h : j ≠ k) :
    lookupA (release_keyval st k).registry j = lookupA st.registry j := by
  unfold release_keyval
  cases lookupA st.registry k with
  | none => rfl
  | some kv =>
    dsimp only
    by_cases hrc : kv.refcount ≤ 1
    · rw [if_pos hrc]
      exact lookupA_removeA_ne st.registry k j h
    · rw [if_neg hrc]
      exact lookupA_setA_ne st.registry k j _ h

theorem release_keyval_lookup_self (st : EngineState) (k : Int)
    (hnd : (st.registry.map Prod.fst).Nodup) :
    lookupA (release_keyval st k).registry k =
      release_effect (lookupA st.registry k) := by
  unfold release_keyval release_effect
  cases hkv : lookupA st.registry k with
  | none =>
    dsimp only
    exact hkv
  | some kv =>
    dsimp only
    by_cases hrc : kv.refcount ≤ 1
    · rw [if_pos hrc, if_pos hrc]
      exact lookupA_removeA_self st.registry k hnd
    · rw [if_neg hrc, if_neg hrc]
      exact lookupA_setA_self st.registry k _

theorem release_keyval_keys_nodup (st : EngineState) (k : Int)
    (hnd : (st.registry.map Prod.fst).Nodup) :
    ((release_keyval st k).registry.map Prod.fst).Nodup := by
  unfold release_keyval
  cases lookupA st.registry k with
  | none => exact hnd
  | some kv =>
    dsimp only
    by_cases hrc : kv.refcount ≤ 1
    · rw [if_pos hrc]
      exact keys_removeA_nodup st.registry k hnd
    · rw [if_neg hrc]
      exact keys_setA_nodup st.registry k _ hnd

theorem delete_impl_step_found (ty : AttrType) (st : EngineState) (cur : AttrMap)
    (key : Int) (kv : Keyval) (a : AttributeValue)
    (hkv : lookupA st.registry key = some kv)
    (hty : kv.attr_type = ty)
    (ha : lookupA cur key = some a) :
    ompi_attr_delete_impl ty st (some cur) key true =
      (if kv.delete_status ≠ Status.SUCCESS then (kv.delete_status, st, some cur, [a])
       else (Status.SUCCESS, release_keyval st key, some (removeA cur key), [a])) := by
  unfold ompi_attr_delete_impl
  rw [hkv]
  dsimp only
  rw [if_neg (by simp [hty])]
  rw [ha]

theorem delete_sweep_cons_success (ty : AttrType) (st : EngineState) (cur : AttrMap)
    (a : AttributeValue) (rest : List AttributeValue) (st' : EngineState) (cur' : AttrMap)
    (hstep : ompi_attr_delete_impl ty st (some cur) a.av_key true =
      (Status.SUCCESS, st', some cur', [a])) :
    delete_sweep ty st (some cur) (a :: rest) =
      ((delete_sweep ty st' (some cur') rest).1,
       (delete_sweep ty st' (some cur') rest).2.1,
       (delete_sweep ty st' (some cur') rest).2.2.1,
       a :: (delete_sweep ty st' (some cur') rest).2.2.2) := by
  have heq : delete_sweep ty st (some cur) (a :: rest) =
      (match ompi_attr_delete_impl ty st (some cur) a.av_key true with
       | (ret, st1, h1, tr) =>
         if ret ≠ Status.SUCCESS then (ret, st1, h1, tr)
         else
           (match delete_sweep ty st1 h1 rest with
            | (ret2, st2, h2, tr2) => (ret2, st2, h2, tr ++ tr2))) := by
    rw [delete_sweep]
  rw [heq, hstep]
  dsimp only
  rw [if_neg (by simp)]
  rcases delete_sweep ty st' (some cur') rest with ⟨r1, r2, r3, r4⟩
  rfl

theorem delete_sweep_all_success (ty : AttrType) :
    ∀ (l : List AttributeValue) (st : EngineState) (cur : AttrMap),
      (st.registry.map Prod.fst).Nodup →
      (cur.map Prod.fst).Nodup →
      (l.map AttributeValue.av_key).Nodup →
      List.Perm cur (l.map entry_of) →
      (∀ a ∈ l, ∃ kv, lookupA st.registry a.av_key = some kv ∧
          kv.attr_type = ty ∧ kv.delete_status = Status.SUCCESS) →
      (delete_sweep ty st (some cur) l).1 = Status.SUCCESS ∧
      (delete_sweep ty st (some cur) l).2.2.1 = some [] ∧
      ((delete_sweep ty st (some cur) l).2.1.registry.map Prod.fst).Nodup ∧
      (∀ j, (j ∈ l.map AttributeValue.av_key →
          lookupA (delete_sweep ty st (some cur) l).2.1.registry j =
            release_effect (lookupA st.registry j)) ∧
        (j ∉ l.map AttributeValue.av_key →
          lookupA (delete_sweep ty st (some cur) l).2.1.registry j =
            lookupA st.registry j)) := by
  intro l
  induction l with
  | nil =>
    intro st cur hregnd _hcurnd _hlnd hperm _hval
    have hcur : cur = [] := hperm.eq_nil
    subst hcur
    exact ⟨rfl, rfl, hregnd, fun j => ⟨fun hj => by simp at hj, fun _ => rfl⟩⟩
  | cons a rest ih =>
    intro st cur hregnd hcurnd hlnd hperm hval
    obtain ⟨kv, hkv, hty, hds⟩ := hval a (List.mem_cons_self a rest)
    have hmem : (a.av_key, a) ∈ cur := by
      rw [hperm.mem_iff]
      exact List.mem_map_of_mem entry_of (List.mem_cons_self a rest)
    have hlook : lookupA cur a.av_key = some a :=
      lookupA_of_mem cur a.av_key a hcurnd hmem
    have hstep : ompi_attr_delete_impl ty st (some cur) a.av_key true =
        (Status.SUCCESS, release_keyval st a.av_key,
          some (removeA cur a.av_key), [a]) := by
      rw [delete_impl_step_found ty st cur a.av_key kv a hkv hty hlook]
      rw [if_neg (by simp [hds])]
    have hkeyrest : a.av_key ∉ rest.map AttributeValue.av_key :=
      (List.nodup_cons.mp hlnd).1
    have hperm' : List.Perm (removeA cur a.av_key) (rest.map entry_of) := by
      have h1 := removeA_cons_perm cur a.av_key a hcurnd hmem
      have hmapcons : (a :: rest).map entry_of = (a.av_key, a) :: rest.map entry_of := rfl
      rw [hmapcons] at hperm
      exact (h1.symm.trans hperm).cons_inv
    have hval' : ∀ b ∈ rest, ∃ kv', lookupA (release_keyval st a.av_key).registry b.av_key =
        some kv' ∧ kv'.attr_type = ty ∧ kv'.delete_status = Status.SUCCESS := by
      intro b hb
      have hne : b.av_key ≠ a.av_key := by
        intro e
        exact hkeyrest (e ▸ List.mem_map_of_mem AttributeValue.av_key hb)
      rw [release_keyval_lookup_ne st a.av_key b.av_key hne]
      exact hval b (List.mem_cons_of_mem a hb)
    obtain ⟨ih1, ih2, ih3, ih4⟩ := ih (release_keyval st a.av_key) (removeA cur a.av_key)
      (release_keyval_keys_nodup st a.av_key hregnd)
      (keys_removeA_nodup cur a.av_key hcurnd)
      (List.nodup_cons.mp hlnd).2 hperm' hval'
    rw [delete_sweep_cons_success ty st cur a rest _ _ hstep]
    refine ⟨ih1, ih2, ih3, fun j => ⟨fun hj => ?_, fun hj => ?_⟩⟩
    · rw [List.map_cons] at hj
      rcases List.mem_cons.mp hj with he | hr
      · subst he
        rw [(ih4 a.av_key).2 hkeyrest]
        exact release_keyval_lookup_self st a.av_key hregnd
      · have hne : j ≠ a.av_key := by
          intro e
          exact hkeyrest (e ▸ hr)
        rw [(ih4 j).1 hr]
        rw [release_keyval_lookup_ne st a.av_key j hne]
    · have hj1 : j ≠ a.av_key := by
        intro e
        refine hj ?_
        rw [List.map_cons, e]
        exact List.mem_cons_self _ _
      have hj2 : j ∉ rest.map AttributeValue.av_key := by
        intro hr
        refine hj ?_
        rw [List.map_cons]
        exact List.mem_cons_of_mem _ hr
      rw [(ih4 j).2 hj2]
      exact release_keyval_lookup_ne st a.av_key j hj1

theorem snapshot_perm_vals (h : AttrMap) :
    List.Perm ((sort_by_seq (h.map Prod.snd)).reverse) (h.map Prod.snd) :=
  (List.reverse_perm (sort_by_seq (h.map Prod.snd))).trans
    (List.perm_insertionSort seq_le (h.map Prod.snd))

theorem map_entry_of_snd_eq_self (h : AttrMap)
    (hwf : ∀ p ∈ h, (p : Int × AttributeValue).2.av_key = p.1) :
    h.map (fun p => entry_of p.2) = h := by
  have hcongr : ∀ p ∈ h, (fun p : Int × AttributeValue => entry_of p.2) p = id p := by
    intro p hp
    obtain ⟨k, c⟩ := p
    have := hwf (k, c) hp
    simp only [entry_of, id]
    rw [this]
  rw [List.map_congr_left hcongr, List.map_id]

theorem snapshot_entries_perm (h : AttrMap)
    (hwf : ∀ p ∈ h, (p : Int × AttributeValue).2.av_key = p.1) :
    List.Perm (((sort_by_seq (h.map Prod.snd)).reverse).map entry_of) h := by
  have h1 := (snapshot_perm_vals h).map entry_of
  rw [List.map_map] at h1
  have h2 : h.map (entry_of ∘ Prod.snd) = h := map_entry_of_snd_eq_self h hwf
  rw [h2] at h1
  exact h1

theorem snapshot_keys_nodup (h : AttrMap)
    (hnd : (h.map Prod.fst).Nodup)
    (hwf : ∀ p ∈ h, (p : Int × AttributeValue).2.av_key = p.1) :
    (((sort_by_seq (h.map Prod.snd)).reverse).map AttributeValue.av_key).Nodup := by
  have hp := (snapshot_entries_perm h hwf).map Prod.fst
  rw [List.map_map] at hp
  have hcomp : (Prod.fst ∘ entry_of) = AttributeValue.av_key := by
    funext a
    rfl
  rw [hcomp] at hp
  exact hp.nodup_iff.mpr hnd

/-- C4 counterexample: when a delete callback fails (key 2's callback
returns a user error), `delete_all` aborts the sweep and returns with
the map still holding the unswept cells -- the map is not empty after
the call. -/
theorem delete_all_failure_nonempty_counterexample :
    (ompi_attr_delete_all AttrType.COMM_ATTR abc_state_bfail (some abc_map)).2.2.1 =
      some [(1, cell_a), (2, cell_b)] ∧
    (some [(1, cell_a), (2, cell_b)] : Option AttrMap) ≠ some [] := by
  refine ⟨rfl, ?_⟩
  intro hcontra
  simp at hcontra

/-- C4 amended: when every cell's keyval is valid and every delete
callback returns success, `delete_all` returns success, the map is
empty afterwards, and every descriptor that had a cell removed has
its refcount exactly one lower (the registry entry disappearing when
the count was 1, per `release_effect`). -/
theorem delete_all_success_spec (ty : AttrType) (st : EngineState) (h : AttrMap)
    (hregnd : (st.registry.map Prod.fst).Nodup)
    (hnd : (h.map Prod.fst).Nodup)
    (hwf : ∀ p ∈ h, (p : Int × AttributeValue).2.av_key = p.1)
    (hval : ∀ p ∈ h, ∃ kv, lookupA st.registry p.1 = some kv ∧
        kv.attr_type = ty ∧ kv.delete_status = Status.SUCCESS) :
    (ompi_attr_delete_all ty st (some h)).1 = Status.SUCCESS ∧
    (ompi_attr_delete_all ty st (some h)).2.2.1 = some [] ∧
    ∀ p ∈ h, lookupA (ompi_attr_delete_all ty st (some h)).2.1.registry p.1 =
      release_effect (lookupA st.registry p.1) := by
  by_cases hlen : h.length = 0
  · have hempty : h = [] := List.length_eq_zero.mp hlen
    subst hempty
    exact ⟨rfl, rfl, fun p hp => by simp at hp⟩
  · have hda : ompi_attr_delete_all ty st (some h) =
        delete_sweep ty st (some h) ((sort_by_seq (h.map Prod.snd)).reverse) := by
      unfold ompi_attr_delete_all
      dsimp only
      rw [if_neg hlen]
    have hperm : List.Perm h (((sort_by_seq (h.map Prod.snd)).reverse).map entry_of) :=
      (snapshot_entries_perm h hwf).symm
    have hvall : ∀ a ∈ (sort_by_seq (h.map Prod.snd)).reverse,
        ∃ kv, lookupA st.registry a.av_key = some kv ∧
          kv.attr_type = ty ∧ kv.delete_status = Status.SUCCESS := by
      intro a ha
      have hmemv : a ∈ h.map Prod.snd := (snapshot_perm_vals h).mem_iff.mp ha
      obtain ⟨p, hp, hpa⟩ := List.mem_map.mp hmemv
      have hka : a.av_key = p.1 := by
        rw [← hpa]
        exact hwf p hp
      rw [hka]
      exact hval p hp
    obtain ⟨h1, h2, _h3, h4⟩ := delete_sweep_all_success ty
      ((sort_by_seq (h.map Prod.snd)).reverse) st h hregnd hnd
      (snapshot_keys_nodup h hnd hwf) hperm hvall
    rw [hda]
    refine ⟨h1, h2, fun p hp => ?_⟩
    have hpkey : p.1 ∈ ((sort_by_seq (h.map Prod.snd)).reverse).map
        AttributeValue.av_key := by
      have hsnd : p.2 ∈ h.map Prod.snd := List.mem_map_of_mem Prod.snd hp
      have hmem_l : p.2 ∈ (sort_by_seq (h.map Prod.snd)).reverse :=
        (snapshot_perm_vals h).mem_iff.mpr hsnd
      have hmk := List.mem_map_of_mem AttributeValue.av_key hmem_l
      rw [hwf p hp] at hmk
      exact hmk
    exact (h4 p.1).1 hpkey

/-- Witness for C4 (amended) at the A, B, C fixture: all callbacks
succeed, the map empties, and key 1's descriptor (refcount 1) is
destroyed. -/
theorem delete_all_success_spec_witness :
    (ompi_attr_delete_all AttrType.COMM_ATTR abc_state_ok (some abc_map)).1 =
      Status.SUCCESS ∧
    (ompi_attr_delete_all AttrType.COMM_ATTR abc_state_ok (some abc_map)).2.2.1 =
      some [] ∧
    lookupA (ompi_attr_delete_all AttrType.COMM_ATTR abc_state_ok
        (some abc_map)).2.1.registry 1 =
      release_effect (lookupA abc_state_ok.registry 1) := by
  have hmain := delete_all_success_spec AttrType.COMM_ATTR abc_state_ok abc_map
    (by decide) (by decide) (by decide)
    (fun p hp => by
      simp only [abc_map, List.mem_cons, List.not_mem_nil, or_false] at hp
      rcases hp with rfl | rfl | rfl <;>
        exact ⟨sample_keyval AttrType.COMM_ATTR Status.SUCCESS, rfl, rfl, rfl⟩)
  exact ⟨hmain.1, hmain.2.1, hmain.2.2 (1, cell_a) (by unfold abc_map; exact List.mem_cons_self _ _)⟩

